import Mathlib

/-!
Shallow embedding of the auxiliary scripts of this repository that the
verified claims concern:

* `src/add_docstring_to_cpython.py` — the reference-annotation rewriter:
  it parses a reference file into a symbol → URL map and inserts a
  docstring line after each matching `    fn <name>` definition header of
  a Mojo source file.
* `src/stdlib/snaker.py` — the camelCase → snake_case converter
  `camel_to_snake`.

Documents are modelled as lists of lines, and lines as lists of
characters, exactly as Python's `readlines` produces them (a line keeps
its trailing newline character).  The regular expressions of the scripts
are embedded with Python's leftmost, greedy, backtracking semantics,
specialised to the concrete patterns that appear in the source.  The
character classes `\w`, `\s`, `[A-Z]`, `[a-z]`, `[a-z0-9]` and
`str.lower` are modelled at their ASCII meaning, which is the fragment
the scripts' inputs exercise.
-/

/-- Python's `\w` character class (ASCII fragment): letters, digits and
underscore. -/
def isWordChar (c : Char) : Bool := c.isAlphanum || c = '_'

/-- Python's `\s` character class (ASCII fragment). -/
def isSpaceChar (c : Char) : Bool :=
  c = ' ' || c = '\t' || c = '\n' || c = '\x0d' || c = '\x0b' || c = '\x0c'

/-- The literal part `https://docs\.python\.org/3/c-api/` of the reference
regex of `add_docstrings_to_mojo_file`. -/
def urlStart : List Char := "https://docs.python.org/3/c-api/".toList

/-- Matching of the regex tail `#c\.\w+\s+(\w+)` at the start of `cs`:
`#c.`, then a non-empty word run (the anchor name), then non-empty
whitespace, then a non-empty word run (capture group 2).  Returns the
characters consumed through the anchor name (the tail of capture
group 1) together with capture group 2.  The two `+`-quantified word and
space classes are disjoint, so Python's greedy matching takes exactly
the maximal runs here. -/
def contMatch : List Char → Option (List Char × List Char)
  | '#' :: 'c' :: '.' :: rest =>
    let w1 := rest.takeWhile isWordChar
    let r1 := rest.dropWhile isWordChar
    if w1 = [] then none
    else if r1.takeWhile isSpaceChar = [] then none
    else
      let w2 := (r1.dropWhile isSpaceChar).takeWhile isWordChar
      if w2 = [] then none
      else some ('#' :: 'c' :: '.' :: w1, w2)
  | _ => none

/-- Matching of `.*#c\.\w+\s+(\w+)` at the start of `cs` with Python's
greedy `.*`: the dot consumes as many characters as possible (never a
newline) such that the rest of the pattern still matches, which the
recursion realises by preferring the longer dot-run and falling back to
`contMatch` at the current position. -/
def scanDotStar : List Char → Option (List Char × List Char)
  | [] => contMatch []
  | c :: cs =>
    if c = '\n' then contMatch (c :: cs)
    else
      match scanDotStar cs with
      | some (g, w) => some (c :: g, w)
      | none => contMatch (c :: cs)

/-- `re.match(r'(https://docs\.python\.org/3/c-api/.*#c\.\w+)\s+(\w+)', line)`:
returns `(group 1, group 2)` — the C-API anchor URL and the symbol —
when the line matches at its start. -/
def refMatch (line : List Char) : Option (List Char × List Char) :=
  if urlStart.isPrefixOf line then
    match scanDotStar (line.drop urlStart.length) with
    | some (g, w) => some (urlStart ++ g, w)
    | none => none
  else none

/-- One iteration of the reference-file loop: a matching line overwrites
the map entry for its symbol (modelled by consing in front of an
association list that `lookupRef` reads front-first), a non-matching
line leaves the map unchanged. -/
def refStep (m : List (List Char × List Char)) (line : List Char) :
    List (List Char × List Char) :=
  match refMatch line with
  | some (url, sym) => (sym, url) :: m
  | none => m

/-- The `reference_mapping` dictionary built from the lines of the
reference file. -/
def reference_mapping (ls : List (List Char)) : List (List Char × List Char) :=
  ls.foldl refStep []

/-- Dictionary lookup: the front-most binding wins, so together with
`refStep`'s consing this is Python's last-write-wins dictionary. -/
def lookupRef : List (List Char × List Char) → List Char → Option (List Char)
  | [], _ => none
  | (k, v) :: m, sym => if k = sym then some v else lookupRef m sym

/-- `re.match(r'    fn (\w+)(.*)', line)`: exactly four spaces, `fn`,
one space, then a non-empty word run (the function name, group 1); the
trailing `(.*)` always matches and constrains nothing. -/
def fnMatch : List Char → Option (List Char)
  | ' ' :: ' ' :: ' ' :: ' ' :: 'f' :: 'n' :: ' ' :: rest =>
    let w := rest.takeWhile isWordChar
    if w = [] then none else some w
  | _ => none

/-- The inserted annotation line: eight spaces, `"""See `, the mapped
URL, closing `"""` and the newline, exactly the f-string of the source. -/
def docstring (url : List Char) : List Char :=
  "        \"\"\"See ".toList ++ url ++ "\"\"\"\n".toList

/-- One iteration of the rewrite loop of `add_docstrings_to_mojo_file`:
the current line is appended to `updated_lines`, and when it is a
definition header whose name is in the map, the docstring line is
appended right after it. -/
def processLine (m : List (List Char × List Char))
    (acc : List (List Char)) (line : List Char) : List (List Char) :=
  let acc2 := acc ++ [line]
  match fnMatch line with
  | some function_name =>
    match lookupRef m function_name with
    | some url => acc2 ++ [docstring url]
    | none => acc2
  | none => acc2

/-- The `updated_lines` list computed by the rewrite loop. -/
def updated_lines (m : List (List Char × List Char))
    (lines : List (List Char)) : List (List Char) :=
  lines.foldl (processLine m) []

/-- The abstract file system: a file name either has contents (a list of
lines) or cannot be opened. -/
abbrev FileSys := String → Option (List (List Char))

/-- A file-access failure (`FileNotFoundError`, `PermissionError`, ...)
raised by `open`, tagged with the offending path. -/
inductive FileError where
  | accessError : String → FileError
deriving DecidableEq

/-- `add_docstrings_to_mojo_file(mojo_filename, reference_filename,
output_filename)` over the abstract file system: open and parse the
reference file, open and read the Mojo file, rewrite the lines in
memory, then write the result to the output path.  A failing `open`
propagates as an error and leaves the file system exactly as it was —
in the source the output file is only opened (and hence truncated or
written) after both reads have succeeded. -/
def add_docstrings_to_mojo_file (fs : FileSys)
    (mojo_filename reference_filename output_filename : String) :
    FileSys × Option FileError :=
  match fs reference_filename with
  | none => (fs, some (FileError.accessError reference_filename))
  | some refLines =>
    match fs mojo_filename with
    | none => (fs, some (FileError.accessError mojo_filename))
    | some lines =>
      let m := reference_mapping refLines
      (fun n => if n = output_filename then some (updated_lines m lines) else fs n,
       none)

/-- `camel_to_snake`'s first substitution `re.sub('(.)([A-Z][a-z]+)',
r'\1_\2', name)`: left-to-right, non-overlapping; on a match (any
non-newline character, an ASCII uppercase letter, a maximal non-empty
run of ASCII lowercase letters) an underscore is inserted between the
first character and the rest, and scanning resumes after the match. -/
def sub1 : List Char → List Char
  | [] => []
  | [c] => [c]
  | c :: u :: rest =>
    if c ≠ '\n' && u.isUpper && !(rest.takeWhile Char.isLower).isEmpty then
      c :: '_' :: u :: (rest.takeWhile Char.isLower ++ sub1 (rest.dropWhile Char.isLower))
    else
      c :: sub1 (u :: rest)
termination_by l => l.length
decreasing_by
  · simp only [List.length_cons]
    have := (List.dropWhile_sublist (l := rest) Char.isLower).length_le
    omega
  · simp [List.length_cons]

/-- `camel_to_snake`'s second substitution `re.sub('([a-z0-9])([A-Z])',
r'\1_\2', s1)`: left-to-right, non-overlapping; an underscore is
inserted between an ASCII lowercase letter or digit and a following
ASCII uppercase letter, and scanning resumes after the uppercase
letter. -/
def sub2 : List Char → List Char
  | [] => []
  | [c] => [c]
  | c :: u :: rest =>
    if (c.isLower || c.isDigit) && u.isUpper then
      c :: '_' :: u :: sub2 rest
    else
      c :: sub2 (u :: rest)
termination_by l => l.length

/-- `camel_to_snake(name)` of `src/stdlib/snaker.py`: both substitutions
followed by `.lower()` (ASCII fragment of `str.lower`, which is what
`Char.toLower` implements). -/
def camel_to_snake (name : List Char) : List Char :=
  (sub2 (sub1 name)).map Char.toLower

/-! ## Specification-side description of the rewrite -/

/-- Modelled from the spec's invariant wording: the block of output lines
that one input line contributes — the line itself, followed by exactly
one annotation line when the line is a definition header whose name is a
key of the map, and nothing else. -/
def lineBlock (m : List (List Char × List Char)) (line : List Char) :
    List (List Char) :=
  match fnMatch line with
  | some name =>
    match lookupRef m name with
    | some url => [line, docstring url]
    | none => [line]
  | none => [line]

/-- The block a matched definition line carries after two passes of the
rewriter: the line and two copies of its annotation. -/
def lineBlockTwice (m : List (List Char × List Char)) (line : List Char) :
    List (List Char) :=
  match fnMatch line with
  | some name =>
    match lookupRef m name with
    | some url => [line, docstring url, docstring url]
    | none => [line]
  | none => [line]

/-! ## Helper lemmas about the rewrite loop -/

theorem processLine_eq (m : List (List Char × List Char))
    (acc : List (List Char)) (line : List Char) :
    processLine m acc line = acc ++ lineBlock m line := by
  unfold processLine lineBlock
  cases hf : fnMatch line with
  | none => simp
  | some name =>
    cases hl : lookupRef m name with
    | none => simp [hl]
    | some url => simp [hl]

theorem foldl_processLine (m : List (List Char × List Char))
    (lines : List (List Char)) :
    ∀ acc, lines.foldl (processLine m) acc = acc ++ (lines.map (lineBlock m)).flatten := by
  induction lines with
  | nil => intro acc; simp
  | cons l ls ih =>
    intro acc
    simp only [List.foldl_cons, processLine_eq, ih, List.map_cons, List.flatten_cons,
      List.append_assoc]

theorem updated_lines_eq (m : List (List Char × List Char))
    (lines : List (List Char)) :
    updated_lines m lines = (lines.map (lineBlock m)).flatten := by
  simpa using foldl_processLine m lines []

theorem fnMatch_docstring (url : List Char) : fnMatch (docstring url) = none := rfl

/-- C1: for every reference map and source document, the rewriter's output
is exactly the in-order concatenation of one block per input line, where
a block is the input line itself followed by exactly one annotation line
when the line is a definition header whose name is a key of the map, and
the input line alone otherwise.  Hence the relative order of all input
lines is preserved, each matched definition gets exactly one annotation
line immediately after it, and no other line shifts position. -/
theorem claim_C1_blocks_preserve_order (m : List (List Char × List Char))
    (lines : List (List Char)) :
    updated_lines m lines = (lines.map (lineBlock m)).flatten :=
  updated_lines_eq m lines

/-- C5: a line recognized as a definition header whose extracted name is
not a key of the reference map is copied to the output unmodified, with
no annotation inserted after it: the output around it is exactly the
rewrite of the lines before it, the line itself, and the rewrite of the
lines after it. -/
theorem claim_C5_unmapped_header_unchanged (m : List (List Char × List Char))
    (pre post : List (List Char)) (line name : List Char)
    (hfn : fnMatch line = some name) (hmap : lookupRef m name = none) :
    updated_lines m (pre ++ line :: post) =
      updated_lines m pre ++ line :: updated_lines m post := by
  simp [updated_lines_eq, lineBlock, hfn, hmap]

/-- Witness for C5 at a concrete input: the header `    fn Foo():` whose
name `Foo` is absent from the empty map. -/
theorem claim_C5_witness :
    updated_lines [] (["# header\n".toList] ++ "    fn Foo():\n".toList :: ["pass\n".toList]) =
      updated_lines [] ["# header\n".toList] ++
        "    fn Foo():\n".toList :: updated_lines [] ["pass\n".toList] :=
  claim_C5_unmapped_header_unchanged [] _ _ _ ("Foo".toList) (by decide) (by decide)

/-- C6: when no line of the document is a definition header whose name is
a key of the map, the output equals the input line for line. -/
theorem claim_C6_no_matching_header_identity (m : List (List Char × List Char))
    (lines : List (List Char))
    (h : ∀ line ∈ lines, ∀ name, fnMatch line = some name → lookupRef m name = none) :
    updated_lines m lines = lines := by
  rw [updated_lines_eq]
  induction lines with
  | nil => simp
  | cons l ls ih =>
    simp only [List.map_cons, List.flatten_cons]
    have hl : lineBlock m l = [l] := by
      unfold lineBlock
      cases hf : fnMatch l with
      | none => rfl
      | some name => simp [h l (by simp) name hf]
    rw [hl]
    simpa using ih (fun line hline name hf => h line (by simp [hline]) name hf)

/-- Witness for C6 at a concrete input: a map holding `Str`, a document
whose only header is `    fn Bar():` (name not in the map) plus a
non-header line. -/
theorem claim_C6_witness :
    updated_lines
        (reference_mapping
          ["https://docs.python.org/3/c-api/object.html#c.PyObject_Str Str\n".toList])
        ["    fn Bar():\n".toList, "x\n".toList] =
      ["    fn Bar():\n".toList, "x\n".toList] :=
  claim_C6_no_matching_header_identity _ _ (by
    intro line hline name hf
    simp only [List.mem_cons, List.not_mem_nil, or_false] at hline
    rcases hline with rfl | rfl
    · have h1 : fnMatch ("    fn Bar():\n".toList) = some ("Bar".toList) := by decide
      rw [h1] at hf
      injection hf with h2
      subst h2
      decide
    · have h3 : fnMatch ("x\n".toList) = none := by decide
      rw [h3] at hf
      exact Option.noConfusion hf)

/-- C7: on the concrete example of the spec — reference line
`https://docs.python.org/3/c-api/object.html#c.PyObject_Str Str` and
source line `    fn Str(...):` — the output is the source line followed
immediately by the annotation line
`        \"\"\"See https://docs.python.org/3/c-api/object.html#c.PyObject_Str\"\"\"`. -/
theorem claim_C7_example_Str :
    updated_lines
        (reference_mapping
          ["https://docs.python.org/3/c-api/object.html#c.PyObject_Str Str\n".toList])
        ["    fn Str(...):\n".toList] =
      ["    fn Str(...):\n".toList,
       "        \"\"\"See https://docs.python.org/3/c-api/object.html#c.PyObject_Str\"\"\"\n".toList] := by
  decide

/-- C2 counterexample: the rewrite is not idempotent.  With the map built
from the spec's `PyObject_Str Str` reference line and the single source
line `    fn Str(...):`, running the rewriter on its own output yields a
document with a second copy of the annotation, different from the first
output. -/
theorem claim_C2_counterexample :
    updated_lines
        (reference_mapping
          ["https://docs.python.org/3/c-api/object.html#c.PyObject_Str Str\n".toList])
        (updated_lines
          (reference_mapping
            ["https://docs.python.org/3/c-api/object.html#c.PyObject_Str Str\n".toList])
          ["    fn Str(...):\n".toList]) ≠
      updated_lines
        (reference_mapping
          ["https://docs.python.org/3/c-api/object.html#c.PyObject_Str Str\n".toList])
        ["    fn Str(...):\n".toList] := by
  decide

/-- C2 amended: the rewriter has no duplicate guard, so a second pass on
its own output inserts one more annotation line directly after each
matched definition header (annotation lines themselves never match the
header pattern), ending with the header followed by two copies of its
annotation; unmatched lines are still left alone. -/
theorem claim_C2_second_pass_duplicates (m : List (List Char × List Char))
    (lines : List (List Char)) :
    updated_lines m (updated_lines m lines) =
      (lines.map (lineBlockTwice m)).flatten := by
  rw [updated_lines_eq, updated_lines_eq]
  induction lines with
  | nil => simp
  | cons l ls ih =>
    simp only [List.map_cons, List.flatten_cons, List.map_append, List.flatten_append, ih]
    congr 1
    unfold lineBlock lineBlockTwice
    cases hf : fnMatch l with
    | none => simp [hf]
    | some name =>
      cases hl : lookupRef m name with
      | none => simp [hf, hl]
      | some url => simp [hf, hl, fnMatch_docstring]

/-- C4: if opening the reference file or the source file fails, the whole
operation fails with a file-access error and the file system is left
untouched — in particular nothing is written to the output path. -/
theorem claim_C4_open_failure_no_write (fs : FileSys)
    (mojo_filename reference_filename output_filename : String)
    (h : fs reference_filename = none ∨ fs mojo_filename = none) :
    (add_docstrings_to_mojo_file fs mojo_filename reference_filename output_filename).1 = fs ∧
      ∃ p, (add_docstrings_to_mojo_file fs mojo_filename reference_filename
              output_filename).2 = some (FileError.accessError p) := by
  unfold add_docstrings_to_mojo_file
  cases hr : fs reference_filename with
  | none => exact ⟨rfl, reference_filename, rfl⟩
  | some refLines =>
    cases hm : fs mojo_filename with
    | none => exact ⟨rfl, mojo_filename, rfl⟩
    | some lines =>
      rcases h with h | h
      · rw [hr] at h; exact Option.noConfusion h
      · rw [hm] at h; exact Option.noConfusion h

/-- Witness for C4 at a concrete input: the empty file system, on which
every `open` fails. -/
theorem claim_C4_witness :
    (add_docstrings_to_mojo_file (fun _ => none) "stdlib/src/python/_cpython.mojo"
        "c-abi.txt" "stdlib/src/python/_cpython.mojo").1 = (fun _ => none : FileSys) ∧
      ∃ p, (add_docstrings_to_mojo_file (fun _ => none) "stdlib/src/python/_cpython.mojo"
              "c-abi.txt" "stdlib/src/python/_cpython.mojo").2 =
        some (FileError.accessError p) :=
  claim_C4_open_failure_no_write _ _ _ _ (Or.inl rfl)

/-! ## Helper lemmas about the reference-map parser -/

theorem refStep_eq (m : List (List Char × List Char)) (line : List Char) :
    refStep m line = refStep [] line ++ m := by
  unfold refStep
  cases refMatch line with
  | none => simp
  | some p => simp

theorem foldl_refStep_append (ls : List (List Char)) :
    ∀ M, List.foldl refStep M ls = List.foldl refStep [] ls ++ M := by
  induction ls with
  | nil => intro M; simp
  | cons l ls ih =>
    intro M
    rw [List.foldl_cons, List.foldl_cons, ih (refStep M l), ih (refStep [] l),
      refStep_eq M l, List.append_assoc]

theorem lookupRef_append (a b : List (List Char × List Char)) (sym : List Char) :
    lookupRef (a ++ b) sym =
      match lookupRef a sym with
      | some v => some v
      | none => lookupRef b sym := by
  induction a with
  | nil => simp [lookupRef]
  | cons p a ih =>
    rcases p with ⟨k, v⟩
    by_cases hk : k = sym
    · simp [lookupRef, hk]
    · simp only [List.cons_append, lookupRef, if_neg hk]
      exact ih

/-- C3: the final reference map reads, for each symbol, the URL of the
last reference-file line that matches the pattern and carries that
symbol; non-matching lines contribute nothing. -/
theorem claim_C3_last_matching_line_wins (ls : List (List Char)) (sym : List Char) :
    lookupRef (reference_mapping ls) sym =
      Option.map Prod.fst
        (((ls.filterMap refMatch).filter (fun p => p.2 == sym)).getLast?) := by
  induction ls using List.reverseRecOn with
  | nil => simp [reference_mapping, lookupRef]
  | append_singleton ls l ih =>
    have hfold : reference_mapping (ls ++ [l]) = refStep (reference_mapping ls) l := by
      simp [reference_mapping, List.foldl_append]
    rw [hfold]
    unfold refStep
    cases hm : refMatch l with
    | none => simpa [hm] using ih
    | some p =>
      rcases p with ⟨url, s⟩
      by_cases hs : s = sym
      · subst hs
        simp [hm, lookupRef, List.filter_append, List.filterMap_append]
      · simp [hm, lookupRef, hs, List.filter_append, List.filterMap_append, ih,
          Ne.symm hs]

/-- C8: parsing the reference file is deterministic and idempotent —
feeding the same lines through the parsing loop a second time, starting
from the map the first pass produced, leaves every lookup unchanged. -/
theorem claim_C8_parse_twice_same_map (ls : List (List Char)) (sym : List Char) :
    lookupRef (List.foldl refStep (reference_mapping ls) ls) sym =
      lookupRef (reference_mapping ls) sym := by
  have h : List.foldl refStep (reference_mapping ls) ls =
      reference_mapping ls ++ reference_mapping ls := foldl_refStep_append ls _
  rw [h, lookupRef_append]
  cases hv : lookupRef (reference_mapping ls) sym <;> simp

/-! ## Shape of the entries produced by the reference-line regex -/

theorem all_takeWhile {α : Type} (p : α → Bool) (l : List α) :
    (l.takeWhile p).all p = true := by
  induction l with
  | nil => rfl
  | cons a l ih =>
    cases hp : p a with
    | false => simp [List.takeWhile_cons, hp]
    | true => simp [List.takeWhile_cons, hp, ih]

theorem contMatch_shape {cs g w : List Char} (h : contMatch cs = some (g, w)) :
    (∃ w1, w1 ≠ [] ∧ w1.all isWordChar = true ∧ g = '#' :: 'c' :: '.' :: w1) ∧
      w ≠ [] ∧ w.all isWordChar = true := by
  unfold contMatch at h
  split at h
  next rest =>
    simp only at h
    split at h
    · exact Option.noConfusion h
    · split at h
      · exact Option.noConfusion h
      · split at h
        · exact Option.noConfusion h
        · next h1 h2 h3 =>
          injection h with h'
          rw [Prod.mk.injEq] at h'
          obtain ⟨hg, hw⟩ := h'
          subst hg
          subst hw
          exact ⟨⟨rest.takeWhile isWordChar, h1, all_takeWhile _ _, rfl⟩,
            h3, all_takeWhile _ _⟩
  next => exact Option.noConfusion h

theorem scanDotStar_shape : ∀ {cs g w : List Char}, scanDotStar cs = some (g, w) →
    (∃ pre w1, w1 ≠ [] ∧ w1.all isWordChar = true ∧
        g = pre ++ ('#' :: 'c' :: '.' :: w1)) ∧
      w ≠ [] ∧ w.all isWordChar = true := by
  intro cs
  induction cs with
  | nil =>
    intro g w h
    exact Option.noConfusion h
  | cons c cs ih =>
    intro g w h
    unfold scanDotStar at h
    split at h
    · obtain ⟨⟨w1, h1, h2, h3⟩, h4, h5⟩ := contMatch_shape h
      exact ⟨⟨[], w1, h1, h2, by simpa using h3⟩, h4, h5⟩
    · split at h
      next g' w' hsc =>
        injection h with h'
        rw [Prod.mk.injEq] at h'
        obtain ⟨hg, hw⟩ := h'
        subst hg
        subst hw
        obtain ⟨⟨pre, w1, h1, h2, h3⟩, h4, h5⟩ := ih hsc
        exact ⟨⟨c :: pre, w1, h1, h2, by simp [h3]⟩, h4, h5⟩
      next hsc =>
        obtain ⟨⟨w1, h1, h2, h3⟩, h4, h5⟩ := contMatch_shape h
        exact ⟨⟨[], w1, h1, h2, by simpa using h3⟩, h4, h5⟩

theorem refMatch_shape {line url sym : List Char}
    (h : refMatch line = some (url, sym)) :
    urlStart <+: url ∧
      (∃ pre w1, w1 ≠ [] ∧ w1.all isWordChar = true ∧
          url = pre ++ ('#' :: 'c' :: '.' :: w1)) ∧
      sym ≠ [] ∧ sym.all isWordChar = true := by
  unfold refMatch at h
  split at h
  · split at h
    next g w hsc =>
      injection h with h'
      rw [Prod.mk.injEq] at h'
      obtain ⟨hg, hw⟩ := h'
      subst hg
      subst hw
      obtain ⟨⟨pre, w1, h1, h2, h3⟩, h4, h5⟩ := scanDotStar_shape hsc
      exact ⟨⟨g, rfl⟩, ⟨urlStart ++ pre, w1, h1, h2, by simp [h3]⟩, h4, h5⟩
    next => exact Option.noConfusion h
  · exact Option.noConfusion h

theorem mem_foldl_refStep :
    ∀ {ls : List (List Char)} {acc : List (List Char × List Char)}
      {p : List Char × List Char}, p ∈ List.foldl refStep acc ls →
      p ∈ acc ∨ ∃ l ∈ ls, refMatch l = some (p.2, p.1) := by
  intro ls
  induction ls with
  | nil =>
    intro acc p h
    exact Or.inl h
  | cons l ls ih =>
    intro acc p h
    rcases ih h with h' | ⟨l', hl', hm⟩
    · revert h'
      unfold refStep
      cases hm : refMatch l with
      | none => intro h'; exact Or.inl h'
      | some q =>
        intro h'
        rcases q with ⟨u, s⟩
        rcases List.mem_cons.mp h' with rfl | h''
        · exact Or.inr ⟨l, by simp, by rw [hm]⟩
        · exact Or.inl h''
    · exact Or.inr ⟨l', by simp [hl'], hm⟩

/-- C10: every entry of the reference map has the parsed shape — the URL
begins with `https://docs.python.org/3/c-api/` and ends in a `#c.`
anchor followed by a non-empty word, and the symbol key is a non-empty
word of alphanumeric/underscore characters.  Malformed reference lines
cannot introduce entries of any other shape. -/
theorem claim_C10_entry_shape (ls : List (List Char)) (sym url : List Char)
    (h : (sym, url) ∈ reference_mapping ls) :
    urlStart <+: url ∧
      (∃ pre w1, w1 ≠ [] ∧ w1.all isWordChar = true ∧
          url = pre ++ ('#' :: 'c' :: '.' :: w1)) ∧
      sym ≠ [] ∧ sym.all isWordChar = true := by
  rcases mem_foldl_refStep h with h' | ⟨l, _, hm⟩
  · exact absurd h' (List.not_mem_nil _)
  · exact refMatch_shape hm

/-- Witness for C10 at a concrete input: the map entry parsed from the
spec's `PyObject_Str Str` reference line. -/
theorem claim_C10_witness :
    urlStart <+: "https://docs.python.org/3/c-api/object.html#c.PyObject_Str".toList ∧
      (∃ pre w1, w1 ≠ [] ∧ w1.all isWordChar = true ∧
          "https://docs.python.org/3/c-api/object.html#c.PyObject_Str".toList =
            pre ++ ('#' :: 'c' :: '.' :: w1)) ∧
      "Str".toList ≠ [] ∧ ("Str".toList).all isWordChar = true :=
  claim_C10_entry_shape
    ["https://docs.python.org/3/c-api/object.html#c.PyObject_Str Str\n".toList]
    ("Str".toList)
    ("https://docs.python.org/3/c-api/object.html#c.PyObject_Str".toList)
    (by decide)

/-! ## Idempotence of camel_to_snake -/

theorem uint32_le_iff {a b : UInt32} : a ≤ b ↔ a.toNat ≤ b.toNat := by
  simp [UInt32.le_def, BitVec.le_def, UInt32.toNat]

theorem toNat_ofNat_valid (n : Nat) (h : n.isValidChar) : (Char.ofNat n).toNat = n := by
  rw [Char.ofNat, dif_pos h]
  simp [Char.ofNatAux, Char.toNat, UInt32.toNat]

theorem isUpper_iff (c : Char) : c.isUpper = true ↔ 65 ≤ c.toNat ∧ c.toNat ≤ 90 := by
  simp only [Char.isUpper, Bool.and_eq_true, decide_eq_true_eq, ge_iff_le, uint32_le_iff]
  have h65 : (65 : UInt32).toNat = 65 := by decide
  have h90 : (90 : UInt32).toNat = 90 := by decide
  rw [h65, h90, Char.toNat]

theorem toLower_isUpper_false (c : Char) : (Char.toLower c).isUpper = false := by
  show (if 65 ≤ c.toNat ∧ c.toNat ≤ 90 then Char.ofNat (c.toNat + 32) else c).isUpper = false
  split
  next h =>
    have hv : (c.toNat + 32).isValidChar := Or.inl (by omega)
    have ht : (Char.ofNat (c.toNat + 32)).toNat = c.toNat + 32 := toNat_ofNat_valid _ hv
    rw [Bool.eq_false_iff]
    intro hc
    have := (isUpper_iff _).mp hc
    omega
  next h =>
    rw [Bool.eq_false_iff]
    intro hc
    exact h ((isUpper_iff _).mp hc)

theorem toLower_eq_self {c : Char} (h : c.isUpper = false) : Char.toLower c = c := by
  show (if 65 ≤ c.toNat ∧ c.toNat ≤ 90 then Char.ofNat (c.toNat + 32) else c) = c
  rw [if_neg]
  intro hg
  rw [(isUpper_iff c).mpr hg] at h
  exact Bool.noConfusion h

theorem sub1_id : ∀ l : List Char, (∀ c ∈ l, c.isUpper = false) → sub1 l = l := by
  intro l
  induction l using sub1.induct with
  | case1 => intro _; simp [sub1]
  | case2 c => intro _; simp [sub1]
  | case3 c u rest hcond ih =>
    intro h
    exfalso
    have hu : u.isUpper = false := h u (by simp)
    simp [hu] at hcond
  | case4 c u rest hcond ih =>
    intro h
    simp only [sub1]
    rw [if_neg hcond, ih (fun x hx => h x (by simp [hx]))]

theorem sub2_id : ∀ l : List Char, (∀ c ∈ l, c.isUpper = false) → sub2 l = l := by
  intro l
  induction l using sub2.induct with
  | case1 => intro _; simp [sub2]
  | case2 c => intro _; simp [sub2]
  | case3 c u rest hcond ih =>
    intro h
    exfalso
    have hu : u.isUpper = false := h u (by simp)
    simp [hu] at hcond
  | case4 c u rest hcond ih =>
    intro h
    simp only [sub2]
    rw [if_neg hcond, ih (fun x hx => h x (by simp [hx]))]

theorem map_toLower_id (l : List Char) (h : ∀ c ∈ l, c.isUpper = false) :
    l.map Char.toLower = l := by
  induction l with
  | nil => rfl
  | cons a l ih =>
    simp only [List.map_cons, toLower_eq_self (h a (by simp)),
      ih (fun x hx => h x (by simp [hx]))]

theorem camel_no_upper (s : List Char) :
    ∀ c ∈ camel_to_snake s, c.isUpper = false := by
  intro c hc
  unfold camel_to_snake at hc
  rcases List.mem_map.mp hc with ⟨a, _, rfl⟩
  exact toLower_isUpper_false a

/-- C9: the camelCase-to-snake_case conversion is idempotent — its
result contains no uppercase letter, and both substitution patterns need
an uppercase letter to match, so a second application changes nothing. -/
theorem claim_C9_camel_to_snake_idempotent (s : List Char) :
    camel_to_snake (camel_to_snake s) = camel_to_snake s := by
  have h := camel_no_upper s
  calc camel_to_snake (camel_to_snake s)
      = (sub2 (sub1 (camel_to_snake s))).map Char.toLower := rfl
    _ = (sub2 (camel_to_snake s)).map Char.toLower := by rw [sub1_id _ h]
    _ = (camel_to_snake s).map Char.toLower := by rw [sub2_id _ h]
    _ = camel_to_snake s := map_toLower_id _ h
